import Mathlib

/-!
Verification development for the FloatMagic container library
(`src/src/mj_common.h`): the growable array `mj::ArrayList<T>` and the
bounded read/write cursor `mj::MemoryBuffer`.

Modelling conventions:
* `mj::ArrayList<T>` keeps a pointer `pData`, a live count `numElements`
  and a `capacity`.  We model the live region `pData[0, numElements)` as a
  Lean list `elems` (so `numElements = elems.length`) together with the
  `capacity` field.  Slots `[numElements, capacity)` are uninitialized
  storage and carry no observable value.
* The allocator (`mj_allocator.h`, declaration only; the interface is
  described in the spec) is modelled by an oracle `alloc : Nat → Bool`
  telling, for each requested byte size, whether `Allocate` returns a
  pointer (true) or null (false).  `tsize` stands for `sizeof(T)`.
* `mj::MemoryBuffer` holds two raw `char*` pointers `end` and `position`.
  We model pointers as natural-number addresses with `0` playing the role
  of the null pointer, and the external byte storage as a list `mem`
  indexed by address.  The poisoned state clears both pointers to null.
* Functions returning `T*` return the address (`0` = null) or an
  `Option Nat` index into the element sequence, as noted per function.
-/

namespace FloatMagic

/-- An allocator oracle that always succeeds (every `Allocate` call
returns a non-null pointer). -/
def allocAlways : Nat → Bool := fun _ => true

/-- An allocator oracle that always fails (`Allocate` always returns
null: the allocator is exhausted). -/
def allocNever : Nat → Bool := fun _ => false

/-- Model of `mj::ArrayList<T>`: the live elements `pData[0, numElements)`
as a list, plus the capacity.  `numElements` is `elems.length`. -/
structure ArrayList (α : Type) where
  elems : List α
  capacity : Nat
deriving Repr, DecidableEq

namespace ArrayList

/-- `ArrayList(Allocator*)`: default construction, no allocation
(`pData = nullptr`, `numElements = 0`, `capacity = 0`). -/
def mkEmpty (α : Type) : ArrayList α := ⟨[], 0⟩

/-- `ArrayList::Size()`: returns `numElements`. -/
def Size (a : ArrayList α) : Nat := a.elems.length

/-- `ArrayList::Capacity()`. -/
def Capacity (a : ArrayList α) : Nat := a.capacity

/-- `ArrayList::Expand(newCapacity)`: asks the allocator for
`newCapacity * ElemSize()` bytes; on success copies the `numElements`
live elements into the new block, frees the old one and installs the new
capacity, returning true; on failure (`Allocate` returned null) leaves
`pData`, `numElements` and `capacity` untouched and returns false. -/
def Expand (tsize : Nat) (alloc : Nat → Bool) (a : ArrayList α) (newCapacity : Nat) :
    ArrayList α × Bool :=
  if alloc (newCapacity * tsize) then ({ a with capacity := newCapacity }, true)
  else (a, false)

/-- `ArrayList::Double()`: `Expand(4)` from capacity 0, otherwise
`Expand(2 * capacity)`. -/
def Double (tsize : Nat) (alloc : Nat → Bool) (a : ArrayList α) : ArrayList α × Bool :=
  if a.capacity = 0 then Expand tsize alloc a 4
  else Expand tsize alloc a (2 * a.capacity)

/-- `ArrayList::Reserve(num)`: returns null for `num = 0`; if
`numElements + num ≤ capacity` hands out the range starting at index
`numElements` (returned as `some index`) and bumps `numElements` by
`num`; otherwise tries `Expand(numElements + num)` and recurses on
success, returning null on failure.  The reserved slots are
unconstructed in the source; the model fills them with `default` as an
unobservable placeholder. -/
def Reserve [Inhabited α] (tsize : Nat) (alloc : Nat → Bool) (a : ArrayList α)
    (num : Nat) : ArrayList α × Option Nat :=
  if num = 0 then (a, none)
  else if a.elems.length + num ≤ a.capacity then
    ({ a with elems := a.elems ++ List.replicate num default }, some a.elems.length)
  else if h : (Expand tsize alloc a (a.elems.length + num)).2 = true then
    Reserve tsize alloc (Expand tsize alloc a (a.elems.length + num)).1 num
  else ((Expand tsize alloc a (a.elems.length + num)).1, none)
termination_by a.elems.length + num - a.capacity
decreasing_by
  simp only [Expand] at h ⊢
  rcases hA : alloc ((a.elems.length + num) * tsize) with _ | _ <;> simp [hA] at h ⊢
  omega

/-- `ArrayList::Insert(position, pSrc, num)` with the source range given
as the list `src` (so `num = src.length`; the `pSrc == nullptr` check has
no counterpart for Lean lists): returns the end index for `num = 0`,
null when `position > numElements`; when the result fits, moves the
elements at/after `position` right by `num` (`memmove`), copies `src`
into the gap (`memcpy`) and returns `some position`; otherwise tries
`Expand(numElements + num)` and recurses on success, null on failure. -/
def Insert (tsize : Nat) (alloc : Nat → Bool) (a : ArrayList α) (position : Nat)
    (src : List α) : ArrayList α × Option Nat :=
  if src.length = 0 then (a, some a.elems.length)
  else if position > a.elems.length then (a, none)
  else if a.elems.length + src.length ≤ a.capacity then
    ({ a with elems := a.elems.take position ++ src ++ a.elems.drop position },
      some position)
  else if h : (Expand tsize alloc a (a.elems.length + src.length)).2 = true then
    Insert tsize alloc (Expand tsize alloc a (a.elems.length + src.length)).1
      position src
  else ((Expand tsize alloc a (a.elems.length + src.length)).1, none)
termination_by a.elems.length + src.length - a.capacity
decreasing_by
  simp only [Expand] at h ⊢
  rcases hA : alloc ((a.elems.length + src.length) * tsize) with _ | _ <;>
    simp [hA] at h ⊢
  omega

/-- `ArrayList::Erase(position, num)`: when `position < numElements` and
`pSrc = pData + position + num` is strictly below `end()`, moves the
elements from `pSrc` down onto `position` (`memmove`; on the live region
that remains after the erase this equals dropping the `num` erased
elements), subtracts `num` from `numElements` and returns
`some position`; in every other case returns null and changes nothing. -/
def Erase (a : ArrayList α) (position num : Nat) : ArrayList α × Option Nat :=
  if position < a.elems.length then
    if position + num < a.elems.length then
      ({ a with elems := a.elems.take position ++ a.elems.drop (position + num) },
        some position)
    else (a, none)
  else (a, none)

/-- `ArrayList::Add(t)`: appends when `numElements < capacity`,
otherwise calls `Double()` and retries on success; returns false
(the source writes `return nullptr;` inside a `bool` function) when
`Double` fails. -/
def Add (tsize : Nat) (alloc : Nat → Bool) (a : ArrayList α) (t : α) :
    ArrayList α × Bool :=
  if a.elems.length < a.capacity then
    ({ a with elems := a.elems ++ [t] }, true)
  else if h : (Double tsize alloc a).2 = true then
    Add tsize alloc (Double tsize alloc a).1 t
  else ((Double tsize alloc a).1, false)
termination_by a.elems.length + 1 - a.capacity
decreasing_by
  simp only [Double, Expand] at h ⊢
  rcases h0 : a.capacity with _ | c <;> simp [h0] at h ⊢
  · rcases hA : alloc (4 * tsize) with _ | _ <;> simp [hA] at h ⊢
    omega
  · rcases hA : alloc (2 * (c + 1) * tsize) with _ | _ <;> simp [hA] at h ⊢
    omega

/-- `ArrayList::Clear()`: destroys the live elements and resets
`numElements` to 0, keeping the capacity. -/
def Clear (a : ArrayList α) : ArrayList α := { a with elems := [] }

end ArrayList

/-- An operation on an `ArrayList`, for reasoning about operation
sequences (`Add`, `Insert`, `Erase`). -/
inductive ALOp (α : Type) where
  | add (t : α)
  | insert (position : Nat) (src : List α)
  | erase (position num : Nat)

/-- Applies one `ALOp`, keeping the resulting array state. -/
def runOp (tsize : Nat) (alloc : Nat → Bool) (a : ArrayList α) : ALOp α → ArrayList α
  | .add t => (ArrayList.Add tsize alloc a t).1
  | .insert p src => (ArrayList.Insert tsize alloc a p src).1
  | .erase p n => (ArrayList.Erase a p n).1

/-- Applies a sequence of `ALOp`s from left to right. -/
def runOps (tsize : Nat) (alloc : Nat → Bool) (a : ArrayList α) :
    List (ALOp α) → ArrayList α
  | [] => a
  | op :: ops => runOps tsize alloc (runOp tsize alloc a op) ops

/-- Folds `Add` over a list of new elements, recording for each call its
success flag and the capacity and count observed right after the call. -/
def addTrace (tsize : Nat) (alloc : Nat → Bool) (a : ArrayList Nat) :
    List Nat → ArrayList Nat × List (Bool × Nat × Nat)
  | [] => (a, [])
  | t :: ts =>
    let r := ArrayList.Add tsize alloc a t
    let rest := addTrace tsize alloc r.1 ts
    (rest.1, (r.2, r.1.capacity, r.1.elems.length) :: rest.2)

/-- `memcpy(dst, src, n)` on the byte store: writes the bytes `src` at
address `dst` of `mem`.  Addresses beyond `mem` are dropped by
`List.set`, matching writes into storage the model does not track. -/
def memcpy (mem : List Nat) (dst : Nat) (src : List Nat) : List Nat :=
  match src with
  | [] => mem
  | b :: rest => memcpy (mem.set dst b) (dst + 1) rest

/-- Model of `mj::MemoryBuffer`: the two `char*` members `end` and
`position`, as natural-number addresses where `0` plays the role of the
null pointer.  `endPtr` is the source's `end` member. -/
structure MemoryBuffer where
  endPtr : Nat
  position : Nat
deriving Repr, DecidableEq

namespace MemoryBuffer

/-- `MemoryBuffer()`: the default constructor sets both `end` and
`position` to null. -/
def mkDefault : MemoryBuffer := ⟨0, 0⟩

/-- `MemoryBuffer(pBegin, size)`: `end = pBegin + size`,
`position = pBegin`. -/
def mkSpan (pBegin size : Nat) : MemoryBuffer := ⟨pBegin + size, pBegin⟩

/-- The poisoned state: both pointers cleared to null (the assignments
`this->end = nullptr; this->position = nullptr;` in every failure
branch). -/
def poison : MemoryBuffer := ⟨0, 0⟩

/-- `MemoryBuffer::SizeLeft()`: `end - position`.  Natural-number
subtraction; every reachable state keeps `position ≤ end`. -/
def SizeLeft (b : MemoryBuffer) : Nat := b.endPtr - b.position

/-- `MemoryBuffer::Good()`: both pointers non-null. -/
def Good (b : MemoryBuffer) : Bool := b.endPtr != 0 && b.position != 0

/-- `MemoryBuffer::Read<T>(t)` (also `operator>>`), for `sizeof(T) = size`:
if `SizeLeft() ≥ size`, copies `size` bytes out of `mem` at `position`
(returned as `some bytes`) and advances; otherwise clears both pointers
and reads nothing (`t` untouched, result `none`). -/
def Read (mem : List Nat) (b : MemoryBuffer) (size : Nat) :
    Option (List Nat) × MemoryBuffer :=
  if SizeLeft b ≥ size then
    (some ((mem.drop b.position).take size), { b with position := b.position + size })
  else (none, poison)

/-- `MemoryBuffer::Write(pData, size)` (also `Write<T>`), with the source
bytes given as the list `src`: if `SizeLeft() ≥ src.length`, copies them
into `mem` at `position` and advances; otherwise clears both pointers
and writes nothing. -/
def Write (mem : List Nat) (b : MemoryBuffer) (src : List Nat) :
    List Nat × MemoryBuffer :=
  if SizeLeft b ≥ src.length then
    (memcpy mem b.position src, { b with position := b.position + src.length })
  else (mem, poison)

/-- `MemoryBuffer::Skip(numBytes)`: advances `position` if the bytes are
there, otherwise clears both pointers. -/
def Skip (b : MemoryBuffer) (numBytes : Nat) : MemoryBuffer :=
  if SizeLeft b ≥ numBytes then { b with position := b.position + numBytes }
  else poison

/-- `MemoryBuffer::ReserveArrayUnaligned<T>(numElements)` with
`sizeof(T) = size`: if `SizeLeft() ≥ numElements * size`, returns the
current `position` as the claimed pointer and advances past the claimed
bytes; otherwise clears both pointers and returns null (`0`). -/
def ReserveArrayUnaligned (b : MemoryBuffer) (numElements size : Nat) :
    Nat × MemoryBuffer :=
  if SizeLeft b ≥ numElements * size then
    (b.position, { b with position := b.position + numElements * size })
  else (0, poison)

/-- `MemoryBuffer::NewUnaligned<T>(args...)`, with the bytes the
constructed `T` object occupies given as `objBytes`
(`sizeof(T) = objBytes.length`): if the object fits, placement-news it
at `position` (writing its bytes), advances, and returns the old
`position`; otherwise clears both pointers and returns null (`0`). -/
def NewUnaligned (mem : List Nat) (b : MemoryBuffer) (objBytes : List Nat) :
    (Nat × List Nat) × MemoryBuffer :=
  if SizeLeft b ≥ objBytes.length then
    ((b.position, memcpy mem b.position objBytes),
      { b with position := b.position + objBytes.length })
  else ((0, mem), poison)

/-- One cursor operation, for reasoning about operation sequences. -/
inductive BufOp where
  | read (size : Nat)
  | write (src : List Nat)
  | skip (numBytes : Nat)
  | reserveArray (numElements size : Nat)
  | newObj (objBytes : List Nat)

/-- The byte count an operation requires (`sizeof(T)`, `size`,
`numBytes`, `numElements * sizeof(T)` respectively). -/
def required : BufOp → Nat
  | .read size => size
  | .write src => src.length
  | .skip numBytes => numBytes
  | .reserveArray numElements size => numElements * size
  | .newObj objBytes => objBytes.length

/-- Applies one cursor operation to the byte store and the cursor,
keeping the store and cursor state. -/
def Step (mem : List Nat) (b : MemoryBuffer) : BufOp → List Nat × MemoryBuffer
  | .read size => (mem, (Read mem b size).2)
  | .write src => Write mem b src
  | .skip numBytes => (mem, Skip b numBytes)
  | .reserveArray numElements size => (mem, (ReserveArrayUnaligned b numElements size).2)
  | .newObj objBytes =>
      let r := NewUnaligned mem b objBytes
      (r.1.2, r.2)

/-- Applies a sequence of cursor operations from left to right. -/
def RunSteps (mem : List Nat) (b : MemoryBuffer) : List BufOp → List Nat × MemoryBuffer
  | [] => (mem, b)
  | op :: ops => RunSteps (Step mem b op).1 (Step mem b op).2 ops

end MemoryBuffer

/-! ## Support lemmas for `ArrayList` -/

namespace ArrayList

variable {α : Type}

theorem Expand_elems (tsize : Nat) (alloc : Nat → Bool) (a : ArrayList α) (n : Nat) :
    (Expand tsize alloc a n).1.elems = a.elems := by
  unfold Expand; split <;> rfl

theorem Expand_true_fst {tsize : Nat} {alloc : Nat → Bool} {a : ArrayList α} {n : Nat}
    (h : (Expand tsize alloc a n).2 = true) :
    (Expand tsize alloc a n).1 = { a with capacity := n } := by
  unfold Expand at h ⊢
  rcases hA : alloc (n * tsize) with _ | _ <;> simp [hA] at h ⊢

theorem Expand_false_fst {tsize : Nat} {alloc : Nat → Bool} {a : ArrayList α} {n : Nat}
    (h : (Expand tsize alloc a n).2 = false) :
    (Expand tsize alloc a n).1 = a := by
  unfold Expand at h ⊢
  rcases hA : alloc (n * tsize) with _ | _ <;> simp [hA] at h ⊢

theorem Expand_snd {tsize : Nat} {alloc : Nat → Bool} (a : ArrayList α) (n : Nat) :
    (Expand tsize alloc a n).2 = alloc (n * tsize) := by
  unfold Expand
  rcases hA : alloc (n * tsize) with _ | _ <;> simp [hA]

theorem Double_elems (tsize : Nat) (alloc : Nat → Bool) (a : ArrayList α) :
    (Double tsize alloc a).1.elems = a.elems := by
  unfold Double; split <;> exact Expand_elems ..

theorem Double_true_fst {tsize : Nat} {alloc : Nat → Bool} {a : ArrayList α}
    (h : (Double tsize alloc a).2 = true) :
    (Double tsize alloc a).1 =
      { a with capacity := if a.capacity = 0 then 4 else 2 * a.capacity } := by
  unfold Double at h ⊢
  by_cases h0 : a.capacity = 0
  · rw [if_pos h0] at h ⊢
    rw [if_pos h0]
    exact Expand_true_fst h
  · rw [if_neg h0] at h ⊢
    rw [if_neg h0]
    exact Expand_true_fst h

theorem Double_false_fst {tsize : Nat} {alloc : Nat → Bool} {a : ArrayList α}
    (h : (Double tsize alloc a).2 = false) :
    (Double tsize alloc a).1 = a := by
  unfold Double at h ⊢
  by_cases h0 : a.capacity = 0
  · rw [if_pos h0] at h ⊢
    exact Expand_false_fst h
  · rw [if_neg h0] at h ⊢
    exact Expand_false_fst h

theorem Double_snd (tsize : Nat) (alloc : Nat → Bool) (a : ArrayList α) :
    (Double tsize alloc a).2 =
      alloc ((if a.capacity = 0 then 4 else 2 * a.capacity) * tsize) := by
  unfold Double
  by_cases h0 : a.capacity = 0 <;> simp [h0, Expand_snd]

theorem Add_fits_eq {tsize : Nat} {alloc : Nat → Bool} {a : ArrayList α} {t : α}
    (h : a.elems.length < a.capacity) :
    Add tsize alloc a t = ({ a with elems := a.elems ++ [t] }, true) := by
  rw [Add]; simp [h]

theorem Add_grow_fail {tsize : Nat} {alloc : Nat → Bool} {a : ArrayList α} {t : α}
    (hcap : a.capacity ≤ a.elems.length)
    (hA : alloc ((if a.capacity = 0 then 4 else 2 * a.capacity) * tsize) = false) :
    Add tsize alloc a t = (a, false) := by
  have hd : (Double tsize alloc a).2 = false := by rw [Double_snd, hA]
  rw [Add]
  rw [if_neg (Nat.not_lt.mpr hcap)]
  rw [dif_neg (by simp [hd] : ¬ (Double tsize alloc a).2 = true)]
  rw [Double_false_fst hd]

theorem Add_grow_eq {tsize : Nat} {alloc : Nat → Bool} {a : ArrayList α} {t : α}
    (hlen : a.elems.length = a.capacity)
    (hA : alloc ((if a.capacity = 0 then 4 else 2 * a.capacity) * tsize) = true) :
    Add tsize alloc a t =
      ({ elems := a.elems ++ [t],
         capacity := if a.capacity = 0 then 4 else 2 * a.capacity }, true) := by
  have hd : (Double tsize alloc a).2 = true := by rw [Double_snd, hA]
  rw [Add]
  rw [if_neg (by omega : ¬ a.elems.length < a.capacity)]
  rw [dif_pos hd]
  rw [Double_true_fst hd]
  rw [Add_fits_eq (by
    show a.elems.length < (if a.capacity = 0 then 4 else 2 * a.capacity)
    split <;> omega)]

theorem Add_capacity_mono (tsize : Nat) (alloc : Nat → Bool) (a : ArrayList α) (t : α) :
    a.capacity ≤ (Add tsize alloc a t).1.capacity := by
  induction a, t using Add.induct tsize alloc with
  | case1 a t h => simp [Add_fits_eq h]
  | case2 a t h hd ih =>
      rw [Add]
      simp only [if_neg h, dif_pos hd]
      refine le_trans ?_ ih
      rw [Double_true_fst hd]
      simp only
      split <;> omega
  | case3 a t h hd =>
      rw [Add]
      simp only [if_neg h, dif_neg hd]
      rw [Double_false_fst (by simpa using hd)]

theorem Add_inv {tsize : Nat} {alloc : Nat → Bool} {a : ArrayList α} {t : α}
    (h : a.elems.length ≤ a.capacity) :
    (Add tsize alloc a t).1.elems.length ≤ (Add tsize alloc a t).1.capacity := by
  induction a, t using Add.induct tsize alloc with
  | case1 a t hlt => simp [Add_fits_eq hlt]; omega
  | case2 a t hlt hd ih =>
      rw [Add]
      simp only [if_neg hlt, dif_pos hd]
      refine ih ?_
      rw [Double_true_fst hd]
      simp only
      split <;> omega
  | case3 a t hlt hd =>
      rw [Add]
      simp only [if_neg hlt, dif_neg hd]
      rwa [Double_false_fst (by simpa using hd)]

theorem Add_true_elems {tsize : Nat} {alloc : Nat → Bool} {a : ArrayList α} {t : α}
    (h : (Add tsize alloc a t).2 = true) :
    (Add tsize alloc a t).1.elems = a.elems ++ [t] := by
  induction a, t using Add.induct tsize alloc with
  | case1 a t hlt => simp [Add_fits_eq hlt]
  | case2 a t hlt hd ih =>
      rw [Add] at h ⊢
      simp only [if_neg hlt, dif_pos hd] at h ⊢
      rw [ih h, Double_elems]
  | case3 a t hlt hd =>
      rw [Add] at h
      simp only [if_neg hlt, dif_neg hd] at h
      simp at h

theorem Add_false_elems {tsize : Nat} {alloc : Nat → Bool} {a : ArrayList α} {t : α}
    (h : (Add tsize alloc a t).2 = false) :
    (Add tsize alloc a t).1.elems = a.elems := by
  induction a, t using Add.induct tsize alloc with
  | case1 a t hlt => simp [Add_fits_eq hlt] at h
  | case2 a t hlt hd ih =>
      rw [Add] at h ⊢
      simp only [if_neg hlt, dif_pos hd] at h ⊢
      rw [ih h, Double_elems]
  | case3 a t hlt hd =>
      rw [Add]
      simp only [if_neg hlt, dif_neg hd]
      rw [Double_elems]

theorem Reserve_zero [Inhabited α] (tsize : Nat) (alloc : Nat → Bool) (a : ArrayList α) :
    Reserve tsize alloc a 0 = (a, none) := by
  rw [Reserve]
  simp

theorem Reserve_fits_eq [Inhabited α] {tsize : Nat} {alloc : Nat → Bool} {a : ArrayList α}
    {num : Nat} (h0 : num ≠ 0) (h : a.elems.length + num ≤ a.capacity) :
    Reserve tsize alloc a num =
      ({ a with elems := a.elems ++ List.replicate num default }, some a.elems.length) := by
  rw [Reserve]
  rw [if_neg h0, if_pos h]

theorem Reserve_grow_eq [Inhabited α] {tsize : Nat} {alloc : Nat → Bool} {a : ArrayList α}
    {num : Nat} (h0 : num ≠ 0) (hcap : a.capacity < a.elems.length + num)
    (hA : alloc ((a.elems.length + num) * tsize) = true) :
    Reserve tsize alloc a num =
      ({ elems := a.elems ++ List.replicate num default,
         capacity := a.elems.length + num }, some a.elems.length) := by
  have he : (Expand tsize alloc a (a.elems.length + num)).2 = true := by
    rw [Expand_snd, hA]
  rw [Reserve]
  rw [if_neg h0, if_neg (by omega : ¬ a.elems.length + num ≤ a.capacity)]
  rw [dif_pos he, Expand_true_fst he]
  rw [Reserve_fits_eq h0 (by simp)]

theorem Reserve_grow_fail [Inhabited α] {tsize : Nat} {alloc : Nat → Bool} {a : ArrayList α}
    {num : Nat} (hcap : a.capacity < a.elems.length + num)
    (hA : alloc ((a.elems.length + num) * tsize) = false) :
    Reserve tsize alloc a num = (a, none) := by
  have he : (Expand tsize alloc a (a.elems.length + num)).2 = false := by
    rw [Expand_snd, hA]
  by_cases h0 : num = 0
  · rw [h0, Reserve_zero]
  rw [Reserve]
  rw [if_neg h0, if_neg (by omega : ¬ a.elems.length + num ≤ a.capacity)]
  rw [dif_neg (by simp [he] : ¬ (Expand tsize alloc a (a.elems.length + num)).2 = true)]
  rw [Expand_false_fst he]

theorem Insert_nil_eq {tsize : Nat} {alloc : Nat → Bool} (a : ArrayList α) (position : Nat) :
    Insert tsize alloc a position ([] : List α) = (a, some a.elems.length) := by
  rw [Insert]
  simp

theorem Insert_oob_eq {tsize : Nat} {alloc : Nat → Bool} {a : ArrayList α} {position : Nat}
    {src : List α} (h0 : src ≠ []) (hpos : a.elems.length < position) :
    Insert tsize alloc a position src = (a, none) := by
  rw [Insert]
  rw [if_neg (by simpa using h0), if_pos hpos]

theorem Insert_fits_eq {tsize : Nat} {alloc : Nat → Bool} {a : ArrayList α} {position : Nat}
    {src : List α} (h0 : src ≠ []) (hpos : position ≤ a.elems.length)
    (hfit : a.elems.length + src.length ≤ a.capacity) :
    Insert tsize alloc a position src =
      ({ a with elems := a.elems.take position ++ src ++ a.elems.drop position },
        some position) := by
  rw [Insert]
  rw [if_neg (by simpa using h0), if_neg (by omega : ¬ a.elems.length < position),
    if_pos hfit]

theorem Insert_grow_eq {tsize : Nat} {alloc : Nat → Bool} {a : ArrayList α} {position : Nat}
    {src : List α} (h0 : src ≠ []) (hpos : position ≤ a.elems.length)
    (hcap : a.capacity < a.elems.length + src.length)
    (hA : alloc ((a.elems.length + src.length) * tsize) = true) :
    Insert tsize alloc a position src =
      ({ elems := a.elems.take position ++ src ++ a.elems.drop position,
         capacity := a.elems.length + src.length }, some position) := by
  have he : (Expand tsize alloc a (a.elems.length + src.length)).2 = true := by
    rw [Expand_snd, hA]
  rw [Insert]
  rw [if_neg (by simpa using h0), if_neg (by omega : ¬ a.elems.length < position),
    if_neg (by omega : ¬ a.elems.length + src.length ≤ a.capacity)]
  rw [dif_pos he, Expand_true_fst he]
  rw [Insert_fits_eq (a := { elems := a.elems, capacity := a.elems.length + src.length })
    h0 hpos (by simp)]

theorem Insert_grow_fail {tsize : Nat} {alloc : Nat → Bool} {a : ArrayList α} {position : Nat}
    {src : List α} (h0 : src ≠ []) (hcap : a.capacity < a.elems.length + src.length)
    (hA : alloc ((a.elems.length + src.length) * tsize) = false) :
    Insert tsize alloc a position src = (a, none) := by
  have he : (Expand tsize alloc a (a.elems.length + src.length)).2 = false := by
    rw [Expand_snd, hA]
  by_cases hpos : a.elems.length < position
  · exact Insert_oob_eq h0 hpos
  rw [Insert]
  rw [if_neg (by simpa using h0), if_neg hpos,
    if_neg (by omega : ¬ a.elems.length + src.length ≤ a.capacity)]
  rw [dif_neg (by simp [he] :
    ¬ (Expand tsize alloc a (a.elems.length + src.length)).2 = true)]
  rw [Expand_false_fst he]

theorem Erase_ok_eq {a : ArrayList α} {position num : Nat}
    (h : position + num < a.elems.length) :
    Erase a position num =
      ({ a with elems := a.elems.take position ++ a.elems.drop (position + num) },
        some position) := by
  unfold Erase
  rw [if_pos (by omega : position < a.elems.length), if_pos h]

theorem Erase_fail_eq {a : ArrayList α} {position num : Nat}
    (h : a.elems.length ≤ position + num) :
    Erase a position num = (a, none) := by
  unfold Erase
  by_cases hp : position < a.elems.length
  · rw [if_pos hp, if_neg (by omega : ¬ position + num < a.elems.length)]
  · rw [if_neg hp]

theorem Insert_capacity_mono (tsize : Nat) (alloc : Nat → Bool) (a : ArrayList α)
    (position : Nat) (src : List α) :
    a.capacity ≤ (Insert tsize alloc a position src).1.capacity := by
  induction a, position, src using Insert.induct tsize alloc with
  | case1 a position src h => rw [Insert]; simp [h]
  | case2 a position src h hpos =>
      rw [Insert_oob_eq (by simpa using h) hpos]
  | case3 a position src h hpos hfit =>
      rw [Insert_fits_eq (by simpa using h) (by omega) hfit]
  | case4 a position src h hpos hfit he ih =>
      rw [Insert]
      rw [if_neg h, if_neg hpos, if_neg hfit, dif_pos he]
      refine le_trans ?_ ih
      rw [Expand_true_fst he]
      simp only
      omega
  | case5 a position src h hpos hfit he =>
      rw [Insert]
      rw [if_neg h, if_neg hpos, if_neg hfit, dif_neg he]
      rw [Expand_false_fst (by simpa using he)]

theorem Insert_inv {tsize : Nat} {alloc : Nat → Bool} {a : ArrayList α}
    {position : Nat} {src : List α} (hinv : a.elems.length ≤ a.capacity) :
    (Insert tsize alloc a position src).1.elems.length ≤
      (Insert tsize alloc a position src).1.capacity := by
  induction a, position, src using Insert.induct tsize alloc with
  | case1 a position src h => rw [Insert]; simpa [h] using hinv
  | case2 a position src h hpos =>
      rw [Insert_oob_eq (by simpa using h) hpos]
      exact hinv
  | case3 a position src h hpos hfit =>
      rw [Insert_fits_eq (by simpa using h) (by omega) hfit]
      simp only [List.length_append, List.length_take, List.length_drop]
      omega
  | case4 a position src h hpos hfit he ih =>
      rw [Insert]
      rw [if_neg h, if_neg hpos, if_neg hfit, dif_pos he]
      refine ih ?_
      rw [Expand_true_fst he]
      simp only
      omega
  | case5 a position src h hpos hfit he =>
      rw [Insert]
      rw [if_neg h, if_neg hpos, if_neg hfit, dif_neg he]
      rwa [Expand_false_fst (by simpa using he)]

theorem Insert_some_length {tsize : Nat} {alloc : Nat → Bool} {a : ArrayList α}
    {position : Nat} {src : List α} {i : Nat}
    (h : (Insert tsize alloc a position src).2 = some i) :
    (Insert tsize alloc a position src).1.elems.length =
      a.elems.length + src.length := by
  induction a, position, src using Insert.induct tsize alloc with
  | case1 a position src hn =>
      rw [Insert] at h ⊢
      simp [hn]
  | case2 a position src hn hpos =>
      rw [Insert_oob_eq (by simpa using hn) hpos] at h
      simp at h
  | case3 a position src hn hpos hfit =>
      rw [Insert_fits_eq (by simpa using hn) (by omega) hfit]
      simp only [List.length_append, List.length_take, List.length_drop]
      omega
  | case4 a position src hn hpos hfit he ih =>
      rw [Insert] at h ⊢
      rw [if_neg hn, if_neg hpos, if_neg hfit, dif_pos he] at h ⊢
      rw [ih h]
      rw [Expand_true_fst he]
  | case5 a position src hn hpos hfit he =>
      rw [Insert] at h
      rw [if_neg hn, if_neg hpos, if_neg hfit, dif_neg he] at h
      simp at h

theorem Insert_none_fst {tsize : Nat} {alloc : Nat → Bool} {a : ArrayList α}
    {position : Nat} {src : List α}
    (h : (Insert tsize alloc a position src).2 = none) :
    (Insert tsize alloc a position src).1.elems = a.elems := by
  induction a, position, src using Insert.induct tsize alloc with
  | case1 a position src hn =>
      rw [Insert] at h
      simp [hn] at h
  | case2 a position src hn hpos =>
      rw [Insert_oob_eq (by simpa using hn) hpos]
  | case3 a position src hn hpos hfit =>
      rw [Insert_fits_eq (by simpa using hn) (by omega) hfit] at h
      simp at h
  | case4 a position src hn hpos hfit he ih =>
      rw [Insert] at h ⊢
      rw [if_neg hn, if_neg hpos, if_neg hfit, dif_pos he] at h ⊢
      rw [ih h]
      rw [Expand_true_fst he]
  | case5 a position src hn hpos hfit he =>
      rw [Insert]
      rw [if_neg hn, if_neg hpos, if_neg hfit, dif_neg he]
      rw [Expand_false_fst (by simpa using he)]

end ArrayList

/-! ## Support lemmas for operation sequences -/

theorem runOp_inv {tsize : Nat} {alloc : Nat → Bool} {a : ArrayList α} (op : ALOp α)
    (hinv : a.elems.length ≤ a.capacity) :
    (runOp tsize alloc a op).elems.length ≤ (runOp tsize alloc a op).capacity := by
  cases op with
  | add t => exact ArrayList.Add_inv hinv
  | insert p src => exact ArrayList.Insert_inv hinv
  | erase p n =>
      simp only [runOp]
      by_cases h : p + n < a.elems.length
      · rw [ArrayList.Erase_ok_eq h]
        simp only [List.length_append, List.length_take, List.length_drop]
        omega
      · rw [ArrayList.Erase_fail_eq (by omega)]
        exact hinv

theorem runOp_capacity_mono {tsize : Nat} {alloc : Nat → Bool} (a : ArrayList α)
    (op : ALOp α) : a.capacity ≤ (runOp tsize alloc a op).capacity := by
  cases op with
  | add t => exact ArrayList.Add_capacity_mono ..
  | insert p src => exact ArrayList.Insert_capacity_mono ..
  | erase p n =>
      simp only [runOp]
      by_cases h : p + n < a.elems.length
      · rw [ArrayList.Erase_ok_eq h]
      · rw [ArrayList.Erase_fail_eq (by omega)]

theorem runOps_inv {tsize : Nat} {alloc : Nat → Bool} {a : ArrayList α}
    (ops : List (ALOp α)) (hinv : a.elems.length ≤ a.capacity) :
    (runOps tsize alloc a ops).elems.length ≤ (runOps tsize alloc a ops).capacity := by
  induction ops generalizing a with
  | nil => exact hinv
  | cons op ops ih => exact ih (runOp_inv op hinv)

theorem runOps_capacity_mono {tsize : Nat} {alloc : Nat → Bool} (a : ArrayList α)
    (ops : List (ALOp α)) : a.capacity ≤ (runOps tsize alloc a ops).capacity := by
  induction ops generalizing a with
  | nil => exact le_refl _
  | cons op ops ih => exact le_trans (runOp_capacity_mono a op) (ih _)

/-! ## Support lemmas for `MemoryBuffer` -/

namespace MemoryBuffer

theorem SizeLeft_poison : SizeLeft poison = 0 := rfl

theorem Good_poison : Good poison = false := rfl

theorem memcpy_nil (mem : List Nat) (dst : Nat) : memcpy mem dst [] = mem := rfl

theorem Step_poison (mem : List Nat) (op : BufOp) :
    Step mem poison op = (mem, poison) := by
  have hp : SizeLeft poison = 0 := rfl
  cases op with
  | read size =>
      simp only [Step]
      unfold Read
      split
      · rename_i hc
        rw [hp] at hc
        have h0 : size = 0 := by omega
        subst h0
        rfl
      · rfl
  | write src =>
      simp only [Step]
      unfold Write
      split
      · rename_i hc
        rw [hp] at hc
        have h0 : src = [] := List.eq_nil_of_length_eq_zero (by omega)
        subst h0
        rfl
      · rfl
  | skip numBytes =>
      simp only [Step]
      unfold Skip
      split
      · rename_i hc
        rw [hp] at hc
        have h0 : numBytes = 0 := by omega
        subst h0
        rfl
      · rfl
  | reserveArray numElements size =>
      simp only [Step]
      unfold ReserveArrayUnaligned
      split
      · rename_i hc
        rw [hp] at hc
        have h0 : numElements * size = 0 := by omega
        rw [h0]
        rfl
      · rfl
  | newObj objBytes =>
      simp only [Step]
      unfold NewUnaligned
      split
      · rename_i hc
        rw [hp] at hc
        have h0 : objBytes = [] := List.eq_nil_of_length_eq_zero (by omega)
        subst h0
        rfl
      · rfl

theorem RunSteps_poison (mem : List Nat) (ops : List BufOp) :
    RunSteps mem poison ops = (mem, poison) := by
  induction ops with
  | nil => rfl
  | cons op ops ih =>
      unfold RunSteps
      rw [Step_poison, ih]

theorem Step_fail {mem : List Nat} {b : MemoryBuffer} {op : BufOp}
    (h : SizeLeft b < required op) : Step mem b op = (mem, poison) := by
  cases op with
  | read size =>
      simp only [Step]
      unfold Read
      rw [if_neg (by simp only [required] at h; omega)]
  | write src =>
      simp only [Step]
      unfold Write
      rw [if_neg (by simp only [required] at h; omega)]
  | skip numBytes =>
      simp only [Step]
      unfold Skip
      rw [if_neg (by simp only [required] at h; omega)]
  | reserveArray numElements size =>
      simp only [Step]
      unfold ReserveArrayUnaligned
      rw [if_neg (by simp only [required] at h; omega)]
  | newObj objBytes =>
      simp only [Step]
      unfold NewUnaligned
      rw [if_neg (by simp only [required] at h; omega)]

theorem Step_success {mem : List Nat} {b : MemoryBuffer} {op : BufOp}
    (h : required op ≤ SizeLeft b) :
    (Step mem b op).2 = { b with position := b.position + required op } := by
  cases op with
  | read size =>
      simp only [Step]
      unfold Read
      rw [if_pos (by simp only [required] at h; omega)]
      rfl
  | write src =>
      simp only [Step]
      unfold Write
      rw [if_pos (by simp only [required] at h; omega)]
      rfl
  | skip numBytes =>
      simp only [Step]
      unfold Skip
      rw [if_pos (by simp only [required] at h; omega)]
      rfl
  | reserveArray numElements size =>
      simp only [Step]
      unfold ReserveArrayUnaligned
      rw [if_pos (by simp only [required] at h; omega)]
      rfl
  | newObj objBytes =>
      simp only [Step]
      unfold NewUnaligned
      rw [if_pos (by simp only [required] at h; omega)]
      rfl

theorem Step_fst_success {mem : List Nat} {b : MemoryBuffer} {op : BufOp}
    (h : required op ≤ SizeLeft b) :
    (Step mem b op).1 = match op with
      | .write src => memcpy mem b.position src
      | .newObj objBytes => memcpy mem b.position objBytes
      | _ => mem := by
  cases op with
  | read size => rfl
  | write src =>
      simp only [Step]
      unfold Write
      rw [if_pos (by simp only [required] at h; omega)]
  | skip numBytes => rfl
  | reserveArray numElements size => rfl
  | newObj objBytes =>
      simp only [Step]
      unfold NewUnaligned
      rw [if_pos (by simp only [required] at h; omega)]

end MemoryBuffer

end FloatMagic

namespace FloatMagic

/-! ## The claims -/

/-- C1: refuted by the code (`Erase`'s own doc comment promises the
behaviour the claim states).  With live elements `[10, 20, 30]`
(count 3) and capacity 4, `Erase(2, 1)` erases the last element, so
`position = 2 < count = 3`: the claim requires the call to succeed,
shrink the count to 2 and return the new end pointer, but the guard
`pSrc < end()` (strict) makes the code return null and leave the array
unchanged whenever `position + num ≥ count`. -/
theorem C1_erase_reaching_end_returns_null :
    ArrayList.Erase (ArrayList.mk ([10, 20, 30] : List Nat) 4) 2 1 =
      (ArrayList.mk [10, 20, 30] 4, none) := by decide

/-- C2: refuted by the code, as a consequence of the `Erase` guard bug
(see C1).  With elements `[10, 20, 30]` (count 3), `p = 1`, `n = 2`
(so `p + n = count`, allowed by the claim), `Erase(1, 2)` returns null
and removes nothing, and re-inserting the two "erased" elements
`[20, 30]` at position 1 then duplicates them: the final sequence is
`[10, 20, 30, 20, 30]` with count 5, not the original `[10, 20, 30]`
with count 3. -/
theorem C2_erase_insert_roundtrip_fails :
    (ArrayList.Insert 1 allocAlways
        (ArrayList.Erase (ArrayList.mk ([10, 20, 30] : List Nat) 4) 1 2).1
        1 [20, 30]).1.elems = [10, 20, 30, 20, 30] ∧
      ([10, 20, 30, 20, 30] : List Nat) ≠ [10, 20, 30] := by
  constructor
  · rw [ArrayList.Erase_fail_eq (by decide)]
    rw [ArrayList.Insert_grow_eq (by decide) (by decide) (by decide) rfl]
    decide
  · decide

/-- C4: refuted by the code.  Growth triggered by `Reserve` does not use
the doubling policy: on an empty array (capacity 0), `Reserve(10)` with
an always-succeeding allocator calls `Expand(numElements + num)` and
sets the capacity to exactly 10, not `max(4, 2 × 0) = 4`. -/
theorem C4_reserve_growth_not_doubling :
    (ArrayList.Reserve 1 allocAlways (ArrayList.mk ([] : List Nat) 0) 10).1.capacity
        = 10 ∧
      (10 : Nat) ≠ max 4 (2 * 0) := by
  constructor
  · rw [ArrayList.Reserve_grow_eq (by decide) (by decide) rfl]
    rfl
  · decide

/-- C6: refuted by the code.  `Reserve(0)` returns null unconditionally
(first check in the function), even though the allocator never fails and
no growth is needed at all (capacity 4 ≥ count 0): a null return that is
not a growth failure. -/
theorem C6_reserve_zero_returns_null :
    ArrayList.Reserve 1 allocAlways (ArrayList.mk ([] : List Nat) 4) 0 =
      (ArrayList.mk [] 4, none) :=
  ArrayList.Reserve_zero 1 allocAlways (ArrayList.mk [] 4)

/-- C8: on an array created empty (capacity 0) with a never-failing
allocator, adding the five elements 1..5 one at a time succeeds on every
call, the capacity observed after each `Add` is 4, 4, 4, 4, 8 (so the
progression including the initial state is 0 → 4 → 4 → 4 → 4 → 8), and
the count after the k-th `Add` is k. -/
theorem C8_add_five_progression :
    (ArrayList.mkEmpty Nat).capacity = 0 ∧
      (addTrace 1 allocAlways (ArrayList.mkEmpty Nat) [1, 2, 3, 4, 5]).2 =
        [(true, 4, 1), (true, 4, 2), (true, 4, 3), (true, 4, 4), (true, 8, 5)] := by
  refine ⟨rfl, ?_⟩
  simp [addTrace, ArrayList.Add, ArrayList.Double, ArrayList.Expand, allocAlways,
    ArrayList.mkEmpty]

/-- C3: every cursor operation (Read, Write, Skip, ReserveArray, New)
first checks `SizeLeft()` against its required byte count; on success it
advances `position` by exactly that count (leaving `end` untouched); on
failure it clears both pointers with no partial effect on the byte store;
the poisoned cursor then absorbs every further operation (state and byte
store unchanged by any subsequent sequence), `Good()` stays false
permanently, and any read of positive size — even one that would fit in
the original buffer — keeps failing. -/
theorem C3_cursor_sticky_failure :
    ∀ (mem : List Nat) (b : MemoryBuffer) (op : MemoryBuffer.BufOp)
      (ops : List MemoryBuffer.BufOp) (size : Nat),
    (MemoryBuffer.required op ≤ MemoryBuffer.SizeLeft b →
      (MemoryBuffer.Step mem b op).2.position =
          b.position + MemoryBuffer.required op ∧
        (MemoryBuffer.Step mem b op).2.endPtr = b.endPtr) ∧
    (MemoryBuffer.SizeLeft b < MemoryBuffer.required op →
      MemoryBuffer.Step mem b op = (mem, MemoryBuffer.poison)) ∧
    MemoryBuffer.RunSteps mem MemoryBuffer.poison ops = (mem, MemoryBuffer.poison) ∧
    MemoryBuffer.Good
      (MemoryBuffer.RunSteps mem MemoryBuffer.poison ops).2 = false ∧
    (0 < size →
      (MemoryBuffer.Read mem MemoryBuffer.poison size).1 = none ∧
        MemoryBuffer.Skip MemoryBuffer.poison size = MemoryBuffer.poison) := by
  intro mem b op ops size
  refine ⟨?_, MemoryBuffer.Step_fail, MemoryBuffer.RunSteps_poison mem ops, ?_, ?_⟩
  · intro h
    rw [MemoryBuffer.Step_success h]
    exact ⟨rfl, rfl⟩
  · rw [MemoryBuffer.RunSteps_poison]
    rfl
  · intro h
    constructor
    · unfold MemoryBuffer.Read
      rw [if_neg (by
        show ¬ MemoryBuffer.SizeLeft MemoryBuffer.poison ≥ size
        rw [MemoryBuffer.SizeLeft_poison]
        omega)]
    · unfold MemoryBuffer.Skip
      rw [if_neg (by
        show ¬ MemoryBuffer.SizeLeft MemoryBuffer.poison ≥ size
        rw [MemoryBuffer.SizeLeft_poison]
        omega)]

/-- Witness for C3 at a concrete input: a cursor over the two bytes at
addresses 1..2 of the three-byte store `[0, 0, 0]` fails a three-byte
write (poisoning the cursor with the store untouched), and a subsequent
one-byte read — which would have fit — fails on the poisoned cursor. -/
theorem C3_cursor_sticky_failure_witness :
    MemoryBuffer.Step [0, 0, 0] (MemoryBuffer.mkSpan 1 2)
        (MemoryBuffer.BufOp.write [5, 5, 5]) = ([0, 0, 0], MemoryBuffer.poison) ∧
      (MemoryBuffer.Read [0, 0, 0] MemoryBuffer.poison 1).1 = none := by
  have h := C3_cursor_sticky_failure [0, 0, 0] (MemoryBuffer.mkSpan 1 2)
    (MemoryBuffer.BufOp.write [5, 5, 5]) [] 1
  exact ⟨h.2.1 (by decide), (h.2.2.2.2 (by decide)).1⟩

/-- C10: a default-constructed cursor already is the poisoned state
(both pointers null): `Good()` is false before any operation,
`SizeLeft()` is 0, and every `Read`, `Write` or `Skip` of nonzero size
fails, leaving the cursor poisoned with the byte store untouched. -/
theorem C10_default_cursor_poisoned :
    MemoryBuffer.mkDefault = MemoryBuffer.poison ∧
    MemoryBuffer.Good MemoryBuffer.mkDefault = false ∧
    MemoryBuffer.SizeLeft MemoryBuffer.mkDefault = 0 ∧
    ∀ (mem : List Nat) (size : Nat) (src : List Nat),
      (0 < size →
        MemoryBuffer.Read mem MemoryBuffer.mkDefault size =
          (none, MemoryBuffer.poison)) ∧
      (src ≠ [] →
        MemoryBuffer.Write mem MemoryBuffer.mkDefault src =
          (mem, MemoryBuffer.poison)) ∧
      (0 < size → MemoryBuffer.Skip MemoryBuffer.mkDefault size = MemoryBuffer.poison) := by
  refine ⟨rfl, rfl, rfl, ?_⟩
  intro mem size src
  refine ⟨?_, ?_, ?_⟩
  · intro h
    unfold MemoryBuffer.Read
    rw [if_neg (by
      show ¬ MemoryBuffer.SizeLeft MemoryBuffer.mkDefault ≥ size
      have h0 : MemoryBuffer.SizeLeft MemoryBuffer.mkDefault = 0 := rfl
      omega)]
  · intro h
    unfold MemoryBuffer.Write
    rw [if_neg (by
      show ¬ MemoryBuffer.SizeLeft MemoryBuffer.mkDefault ≥ src.length
      have h0 : MemoryBuffer.SizeLeft MemoryBuffer.mkDefault = 0 := rfl
      have : src.length ≠ 0 := by
        intro hl
        exact h (List.eq_nil_of_length_eq_zero hl)
      omega)]
  · intro h
    unfold MemoryBuffer.Skip
    rw [if_neg (by
      show ¬ MemoryBuffer.SizeLeft MemoryBuffer.mkDefault ≥ size
      have h0 : MemoryBuffer.SizeLeft MemoryBuffer.mkDefault = 0 := rfl
      omega)]

/-- Witness for C10 at a concrete input: on the default-constructed
cursor, a one-byte read and a one-byte skip fail, and a one-byte write
leaves the store `[9]` untouched. -/
theorem C10_default_cursor_poisoned_witness :
    MemoryBuffer.Read [9] MemoryBuffer.mkDefault 1 = (none, MemoryBuffer.poison) ∧
      MemoryBuffer.Write [9] MemoryBuffer.mkDefault [3] = ([9], MemoryBuffer.poison) ∧
      MemoryBuffer.Skip MemoryBuffer.mkDefault 1 = MemoryBuffer.poison := by
  have h := (C10_default_cursor_poisoned.2.2.2 [9] 1 [3])
  exact ⟨h.1 (by decide), h.2.1 (by decide), h.2.2 (by decide)⟩

/-- C5: when a mutating operation needs to grow and the allocation
fails, the array state (elements, count, capacity) is returned exactly
as it was and the operation reports failure: `Add` returns false when
at capacity and the doubling allocation fails; `Reserve` returns null
when `count + num` exceeds capacity and that allocation fails; `Insert`
likewise returns null with the array unchanged. -/
theorem C5_failed_growth_unchanged :
    ∀ {α : Type} [Inhabited α] (tsize : Nat) (alloc : Nat → Bool) (a : ArrayList α)
      (t : α) (position num : Nat) (src : List α),
    (a.capacity ≤ a.elems.length →
      alloc ((if a.capacity = 0 then 4 else 2 * a.capacity) * tsize) = false →
      ArrayList.Add tsize alloc a t = (a, false)) ∧
    (a.capacity < a.elems.length + num →
      alloc ((a.elems.length + num) * tsize) = false →
      ArrayList.Reserve tsize alloc a num = (a, none)) ∧
    (src ≠ [] → a.capacity < a.elems.length + src.length →
      alloc ((a.elems.length + src.length) * tsize) = false →
      ArrayList.Insert tsize alloc a position src = (a, none)) := by
  intro α _ tsize alloc a t position num src
  exact ⟨fun h1 h2 => ArrayList.Add_grow_fail h1 h2,
    fun h1 h2 => ArrayList.Reserve_grow_fail h1 h2,
    fun h0 h1 h2 => ArrayList.Insert_grow_fail h0 h1 h2⟩

/-- Witness for C5 at a concrete input: on the empty array with the
exhausted allocator, `Add 7`, `Reserve 1` and `Insert 0 [7]` all fail
and return the array unchanged. -/
theorem C5_failed_growth_unchanged_witness :
    ArrayList.Add 1 allocNever (ArrayList.mk ([] : List Nat) 0) 7 =
        (ArrayList.mk [] 0, false) ∧
      ArrayList.Reserve 1 allocNever (ArrayList.mk ([] : List Nat) 0) 1 =
        (ArrayList.mk [] 0, none) ∧
      ArrayList.Insert 1 allocNever (ArrayList.mk ([] : List Nat) 0) 0 [7] =
        (ArrayList.mk [] 0, none) := by
  have h := C5_failed_growth_unchanged 1 allocNever (ArrayList.mk ([] : List Nat) 0)
    7 0 1 [7]
  exact ⟨h.1 (by decide) rfl, h.2.1 (by decide) rfl, h.2.2 (by decide) (by decide) rfl⟩

/-- C4 (amended): a growth event triggered by `Add` (via `Double`) sets
the new capacity to 4 when the old capacity is 0 and to 2 × the old
capacity otherwise, while growth triggered by `Reserve` or `Insert`
sets the new capacity to exactly `count + n` (the requested total),
not `max(4, 2 × old capacity)`. -/
theorem C4_amended_growth_policy :
    ∀ {α : Type} [Inhabited α] (tsize : Nat) (alloc : Nat → Bool) (a : ArrayList α)
      (t : α) (position num : Nat) (src : List α),
    ((ArrayList.Double tsize alloc a).2 = true →
      (ArrayList.Double tsize alloc a).1.capacity =
        if a.capacity = 0 then 4 else 2 * a.capacity) ∧
    (a.elems.length = a.capacity → (ArrayList.Add tsize alloc a t).2 = true →
      (ArrayList.Add tsize alloc a t).1.capacity =
        if a.capacity = 0 then 4 else 2 * a.capacity) ∧
    (a.capacity < a.elems.length + num →
      (ArrayList.Reserve tsize alloc a num).2 ≠ none →
      (ArrayList.Reserve tsize alloc a num).1.capacity = a.elems.length + num) ∧
    (src ≠ [] → a.capacity < a.elems.length + src.length →
      (ArrayList.Insert tsize alloc a position src).2 ≠ none →
      (ArrayList.Insert tsize alloc a position src).1.capacity =
        a.elems.length + src.length) := by
  intro α _ tsize alloc a t position num src
  refine ⟨?_, ?_, ?_, ?_⟩
  · intro h
    rw [ArrayList.Double_true_fst h]
  · intro hlen hAdd
    rcases hA : alloc ((if a.capacity = 0 then 4 else 2 * a.capacity) * tsize) with _ | _
    · rw [ArrayList.Add_grow_fail (le_of_eq hlen.symm) hA] at hAdd
      simp at hAdd
    · rw [ArrayList.Add_grow_eq hlen hA]
  · intro hcap hne
    by_cases h0 : num = 0
    · rw [h0, ArrayList.Reserve_zero] at hne
      simp at hne
    rcases hA : alloc ((a.elems.length + num) * tsize) with _ | _
    · rw [ArrayList.Reserve_grow_fail hcap hA] at hne
      simp at hne
    · rw [ArrayList.Reserve_grow_eq h0 hcap hA]
  · intro hsrc hcap hne
    by_cases hpos : a.elems.length < position
    · rw [ArrayList.Insert_oob_eq hsrc hpos] at hne
      simp at hne
    rcases hA : alloc ((a.elems.length + src.length) * tsize) with _ | _
    · rw [ArrayList.Insert_grow_fail hsrc hcap hA] at hne
      simp at hne
    · rw [ArrayList.Insert_grow_eq hsrc (by omega) hcap hA]

/-- Witness for C4 (amended) at concrete inputs: on the empty array with
a never-failing allocator, `Double` yields capacity 4, a growing `Add`
yields capacity 4, `Reserve(10)` yields capacity 10 and
`Insert(0, [7], 1)` yields capacity 1. -/
theorem C4_amended_growth_policy_witness :
    (ArrayList.Double 1 allocAlways (ArrayList.mk ([] : List Nat) 0)).1.capacity = 4 ∧
      (ArrayList.Add 1 allocAlways (ArrayList.mk ([] : List Nat) 0) 7).1.capacity = 4 ∧
      (ArrayList.Reserve 1 allocAlways (ArrayList.mk ([] : List Nat) 0) 10).1.capacity
        = 10 ∧
      (ArrayList.Insert 1 allocAlways (ArrayList.mk ([] : List Nat) 0) 0 [7]).1.capacity
        = 1 := by
  have h := C4_amended_growth_policy 1 allocAlways (ArrayList.mk ([] : List Nat) 0)
    7 0 10 [7]
  have hAdd : (ArrayList.Add 1 allocAlways (ArrayList.mk ([] : List Nat) 0) 7).2
      = true := by
    rw [ArrayList.Add_grow_eq (a := ArrayList.mk [] 0) rfl rfl]
  have hRes : (ArrayList.Reserve 1 allocAlways (ArrayList.mk ([] : List Nat) 0) 10).2
      ≠ none := by
    rw [ArrayList.Reserve_grow_eq (a := ArrayList.mk [] 0) (by decide) (by decide) rfl]
    simp
  have hIns : (ArrayList.Insert 1 allocAlways (ArrayList.mk ([] : List Nat) 0) 0 [7]).2
      ≠ none := by
    rw [ArrayList.Insert_grow_eq (a := ArrayList.mk [] 0) (by decide) (by decide)
      (by decide) rfl]
    simp
  refine ⟨?_, ?_, ?_, ?_⟩
  · simpa using h.1 (by decide)
  · simpa using h.2.1 rfl hAdd
  · simpa using h.2.2.1 (by decide) hRes
  · simpa using h.2.2.2 (by decide) (by decide) hIns

/-- C6 (amended): `Reserve(0)` returns null unconditionally and changes
nothing; for `num ≥ 1`, `Reserve(num)` returns null exactly when growth
is needed and the allocation for `count + num` elements fails, and
otherwise returns the index of the previous end, extends the count by
`num`, and keeps the existing elements as a prefix. -/
theorem C6_amended_reserve_contract :
    ∀ {α : Type} [Inhabited α] (tsize : Nat) (alloc : Nat → Bool) (a : ArrayList α)
      (num : Nat),
    ArrayList.Reserve tsize alloc a 0 = (a, none) ∧
    (1 ≤ num →
      (((ArrayList.Reserve tsize alloc a num).2 = none) ↔
        (a.capacity < a.elems.length + num ∧
          alloc ((a.elems.length + num) * tsize) = false)) ∧
      ((ArrayList.Reserve tsize alloc a num).2 ≠ none →
        (ArrayList.Reserve tsize alloc a num).2 = some a.elems.length ∧
          (ArrayList.Reserve tsize alloc a num).1.elems.length =
            a.elems.length + num ∧
          (ArrayList.Reserve tsize alloc a num).1.elems.take a.elems.length =
            a.elems)) := by
  intro α _ tsize alloc a num
  refine ⟨ArrayList.Reserve_zero tsize alloc a, ?_⟩
  intro h1
  have h0 : num ≠ 0 := by omega
  by_cases hfit : a.elems.length + num ≤ a.capacity
  · rw [ArrayList.Reserve_fits_eq h0 hfit]
    constructor
    · simp
      omega
    · intro _
      refine ⟨rfl, ?_, ?_⟩
      · simp
      · simp [List.take_left]
  · have hcap : a.capacity < a.elems.length + num := by omega
    rcases hA : alloc ((a.elems.length + num) * tsize) with _ | _
    · rw [ArrayList.Reserve_grow_fail hcap hA]
      constructor
      · simp [hcap, hA]
      · intro hne
        simp at hne
    · rw [ArrayList.Reserve_grow_eq h0 hcap hA]
      constructor
      · simp [hA]
      · intro _
        refine ⟨rfl, ?_, ?_⟩
        · simp
        · simp [List.take_left]

/-- Witness for C6 (amended) at a concrete input: on the empty array
with a never-failing allocator, `Reserve(1)` returns the index of the
previous end (0) and extends the count to 1. -/
theorem C6_amended_reserve_contract_witness :
    (ArrayList.Reserve 1 allocAlways (ArrayList.mk ([] : List Nat) 0) 1).2 = some 0 ∧
      (ArrayList.Reserve 1 allocAlways (ArrayList.mk ([] : List Nat) 0) 1).1.elems.length
        = 1 := by
  have h := (C6_amended_reserve_contract 1 allocAlways
    (ArrayList.mk ([] : List Nat) 0) 1).2 (by decide)
  have hne : (ArrayList.Reserve 1 allocAlways (ArrayList.mk ([] : List Nat) 0) 1).2
      ≠ none := by
    intro hn
    have := h.1.mp hn
    simp [allocAlways] at this
  have hs := h.2 hne
  exact ⟨hs.1, hs.2.1⟩

/-- C7: along any sequence of `Add`/`Insert`/`Erase` operations starting
from a state with `count ≤ capacity`, the invariant
`0 ≤ count ≤ capacity` holds after every prefix, the capacity never
shrinks, and the count changes by exactly the number of elements each
successful operation adds or erases (and is unchanged by failed
operations), so the final count is the net number of logically-present
elements. -/
theorem C7_sequence_invariants :
    ∀ {α : Type} (tsize : Nat) (alloc : Nat → Bool) (a : ArrayList α)
      (ops : List (ALOp α)),
    a.elems.length ≤ a.capacity →
    (∀ n, (runOps tsize alloc a (List.take n ops)).elems.length ≤
        (runOps tsize alloc a (List.take n ops)).capacity) ∧
    a.capacity ≤ (runOps tsize alloc a ops).capacity ∧
    (∀ (b : ArrayList α) (t : α),
      ((ArrayList.Add tsize alloc b t).2 = true →
        (ArrayList.Add tsize alloc b t).1.elems.length = b.elems.length + 1) ∧
      ((ArrayList.Add tsize alloc b t).2 = false →
        (ArrayList.Add tsize alloc b t).1.elems.length = b.elems.length)) ∧
    (∀ (b : ArrayList α) (p : Nat) (src : List α),
      ((ArrayList.Insert tsize alloc b p src).2.isSome = true →
        (ArrayList.Insert tsize alloc b p src).1.elems.length =
          b.elems.length + src.length) ∧
      ((ArrayList.Insert tsize alloc b p src).2 = none →
        (ArrayList.Insert tsize alloc b p src).1.elems.length = b.elems.length)) ∧
    (∀ (b : ArrayList α) (p n : Nat),
      ((ArrayList.Erase b p n).2.isSome = true →
        (ArrayList.Erase b p n).1.elems.length = b.elems.length - n) ∧
      ((ArrayList.Erase b p n).2 = none →
        (ArrayList.Erase b p n).1.elems = b.elems)) := by
  intro α tsize alloc a ops hinv
  refine ⟨fun n => runOps_inv _ hinv, runOps_capacity_mono a ops, ?_, ?_, ?_⟩
  · intro b t
    constructor
    · intro h
      rw [ArrayList.Add_true_elems h]
      simp
    · intro h
      rw [ArrayList.Add_false_elems h]
  · intro b p src
    constructor
    · intro h
      obtain ⟨i, hi⟩ := Option.isSome_iff_exists.mp h
      exact ArrayList.Insert_some_length hi
    · intro h
      rw [ArrayList.Insert_none_fst h]
  · intro b p n
    constructor
    · intro h
      by_cases hok : p + n < b.elems.length
      · rw [ArrayList.Erase_ok_eq hok]
        simp only [List.length_append, List.length_take, List.length_drop]
        omega
      · rw [ArrayList.Erase_fail_eq (by omega)] at h
        simp at h
    · intro h
      by_cases hok : p + n < b.elems.length
      · rw [ArrayList.Erase_ok_eq hok] at h
        simp at h
      · rw [ArrayList.Erase_fail_eq (by omega)]

/-- Witness for C7 at a concrete input: from the empty array, the
one-operation sequence `[Add 7]` keeps `count ≤ capacity` and the
capacity does not shrink, and that successful `Add` raises the count by
one. -/
theorem C7_sequence_invariants_witness :
    (runOps 1 allocAlways (ArrayList.mk ([] : List Nat) 0)
          (List.take 1 [ALOp.add 7])).elems.length ≤
        (runOps 1 allocAlways (ArrayList.mk ([] : List Nat) 0)
          (List.take 1 [ALOp.add 7])).capacity ∧
      (ArrayList.mk ([] : List Nat) 0).capacity ≤
        (runOps 1 allocAlways (ArrayList.mk ([] : List Nat) 0)
          [ALOp.add 7]).capacity := by
  have h := C7_sequence_invariants 1 allocAlways (ArrayList.mk ([] : List Nat) 0)
    [ALOp.add 7] (by decide)
  exact ⟨h.1 1, h.2.1⟩

end FloatMagic
